import Mathlib

/-!
# Verification of the flat-file record store, admin gate and contact pipeline

Shallow embedding of the backend core of the `gabriel_site` repository:

* `ProjectService` / `ArticleService` (flat-file record stores,
  `backend/src/services/projectService.js` and `articleService.js`),
* the admin authentication gate (`backend/src/middleware/adminAuth.js`),
* the contact-form validation pipeline
  (`backend/src/utils/validators.js`, `backend/src/routes/contact.js`,
  `backend/config/security.js`).

JavaScript objects are embedded as association lists of string keys and
`JsVal` values; object spread `{...a, ...b}` is `spreadObj`.  Stateful
service methods are embedded as explicit state-passing functions; the
outcome of a disk write is an explicit boolean parameter.
-/

namespace GabrielSite

/-- A JavaScript value as it occurs in the backend's data records:
`undefined`, `null`, booleans, (integer) numbers and strings.  The records
handled by the two services only ever carry these shapes. -/
inductive JsVal where
  | undef
  | vnull
  | bool (b : Bool)
  | num (n : Int)
  | str (s : String)
  deriving DecidableEq, Repr

/-- A JavaScript object, embedded as an association list of own enumerable
properties in insertion order.  A key present with value `JsVal.undef`
models a JS own property whose value is `undefined`; a key absent from the
list models an absent property. -/
abbrev Obj := List (String × JsVal)

/-- Property read: the value of the first binding of `k`, or `none` when
the object has no own property `k`. -/
def getProp (o : Obj) (k : String) : Option JsVal :=
  o.lookup k

/-- JavaScript object spread `{...a, ...b}`: every property of `a`, with
its value overridden by `b`'s when `b` also has the key (even when `b`'s
value is `undefined`), followed by the properties of `b` absent from `a`. -/
def spreadObj (a b : Obj) : Obj :=
  a.map (fun kv => (kv.1, match b.lookup kv.1 with
                          | some v => v
                          | none => kv.2))
  ++ b.filter (fun kv => (a.lookup kv.1).isNone)

theorem lookup_map_override (b : Obj) (a : Obj) (k : String) :
    (a.map (fun kv => (kv.1, match b.lookup kv.1 with
                             | some v => v
                             | none => kv.2))).lookup k
      = match a.lookup k with
        | some v => some ((b.lookup k).getD v)
        | none => none := by
  induction a with
  | nil => simp [List.lookup]
  | cons hd tl ih =>
    obtain ⟨hk, hv⟩ := hd
    by_cases h : k = hk
    · subst h
      simp only [List.map_cons, List.lookup, beq_self_eq_true, if_true]
      cases hbk : b.lookup k <;> simp [hbk]
    · have hbeq : (k == hk) = false := beq_false_of_ne h
      simp only [List.map_cons, List.lookup, hbeq, if_neg, Bool.false_eq_true,
        if_false]
      exact ih

theorem lookup_filter_not_in_left (a b : Obj) (k : String) (ha : a.lookup k = none) :
    (b.filter (fun kv => (a.lookup kv.1).isNone)).lookup k = b.lookup k := by
  induction b with
  | nil => simp
  | cons hd tl ih =>
    obtain ⟨hk, hv⟩ := hd
    by_cases h : k = hk
    · subst h
      simp [List.filter_cons, ha, List.lookup]
    · have hbeq : (k == hk) = false := beq_false_of_ne h
      by_cases hmem : (List.lookup hk a).isNone
      · simp only [List.filter_cons, hmem, if_true, List.lookup, hbeq,
          Bool.false_eq_true, if_false]
        exact ih
      · simp only [List.filter_cons, hmem, List.lookup, hbeq,
          Bool.false_eq_true, if_false]
        exact ih

/-- The fundamental property of object spread at the level of property
reads: the right operand wins whenever it has the key (also with an
`undefined` value), the left operand's value shows through otherwise. -/
theorem getProp_spreadObj (a b : Obj) (k : String) :
    getProp (spreadObj a b) k = (b.lookup k).orElse (fun _ => a.lookup k) := by
  unfold getProp spreadObj
  rw [List.lookup_append, lookup_map_override]
  cases hak : a.lookup k with
  | none =>
    simp only [Option.orElse]
    rw [lookup_filter_not_in_left a b k hak]
    cases b.lookup k <;> rfl
  | some v =>
    cases hbk : b.lookup k <;> simp [Option.orElse, hbk]

/-! ## Record store (`projectService.js` / `articleService.js`)

The two services are textually identical except that `ArticleService.init`
creates a missing backing file and `ArticleService.addArticle` defaults the
`date` field.  Operations are embedded with the in-memory list as explicit
state; whether the full-file rewrite performed by `_save` succeeds is the
explicit boolean `writeOk` (a failing rewrite makes `_save` throw, which
the operations propagate). -/

/-- Result of a mutating store operation: the JS method returned `null`
(record not found), returned normally, or threw because `_save`'s disk
write failed. -/
inductive OpResult (α : Type) where
  | notFound
  | ok (val : α)
  | saveFailed
  deriving DecidableEq, Repr

/-- Full outcome of a store operation: its result, the in-memory list
afterwards, and whether `_save` (the full-file rewrite) was invoked. -/
structure OpOut (α : Type) where
  result : OpResult α
  state : List Obj
  saved : Bool
  deriving DecidableEq, Repr

/-- The numeric id a record carries.  Records created by the store always
carry a numeric `id` property (see `nextId_spreads` below); for any other
shape this returns `0`, which the well-formedness hypotheses of the
theorems below exclude. -/
def recIdNum (r : Obj) : Int :=
  match r.lookup "id" with
  | some (.num n) => n
  | _ => 0

/-- `projectService.js` line 57: the id of a freshly added record,
`Math.max(...this.projects.map(p => p.id)) + 1` when the list is nonempty
and `1` otherwise. -/
def nextId (projects : List Obj) : Int :=
  match projects.map recIdNum with
  | [] => 1
  | x :: xs => xs.foldl max x + 1

/-- `ProjectService.addProject` (projectService.js lines 55-73): build the
new record as `{id: newId, ...projectData}`, push it onto the in-memory
list, then await `_save`; a failing write throws after the push. -/
def addProject (writeOk : Bool) (projects : List Obj) (projectData : Obj) :
    OpOut Obj :=
  let newProject := spreadObj [("id", JsVal.num (nextId projects))] projectData
  { result := if writeOk then .ok newProject else .saveFailed
    state := projects ++ [newProject]
    saved := true }

/-- `Array.prototype.findIndex`, with `none` standing for the JS result
`-1`. -/
def findIndex (p : Obj → Bool) : List Obj → Option Nat
  | [] => none
  | r :: rs => if p r then some 0 else (findIndex p rs).map (· + 1)

/-- The lookup predicate used by the by-id operations:
`p.id === Number(id)` (strict equality against the numeric-coerced id). -/
def hasId (id : Int) (r : Obj) : Bool :=
  r.lookup "id" == some (JsVal.num id)

/-- `ProjectService.getProjectById` (projectService.js lines 39-41):
`this.projects.find(p => p.id === Number(id))`, taking the already
numeric-coerced id as input. -/
def getProjectById (projects : List Obj) (id : Int) : Option Obj :=
  projects.find? (hasId id)

/-- `ProjectService.updateProject` (projectService.js lines 76-98), with
the identical `ArticleService.updateArticle` (articleService.js lines
76-98): locate by id, return `null` when absent (no save), otherwise
replace the record with `{...oldProject, ...updateData}` and await a
save, returning both records. -/
def updateProject (writeOk : Bool) (projects : List Obj) (id : Int)
    (updateData : Obj) : OpOut (Obj × Obj) :=
  match findIndex (hasId id) projects with
  | none => { result := .notFound, state := projects, saved := false }
  | some i =>
    let oldProject := projects.getD i []
    let updatedProject := spreadObj oldProject updateData
    { result := if writeOk then .ok (updatedProject, oldProject) else .saveFailed
      state := projects.set i updatedProject
      saved := true }

/-- `ProjectService.deleteProject` (projectService.js lines 101-115), with
the identical `ArticleService.deleteArticle` (articleService.js lines
101-112): locate by id, return `null` when absent (no save), otherwise
splice the record out and await a save, returning the removed record. -/
def deleteProject (writeOk : Bool) (projects : List Obj) (id : Int) :
    OpOut Obj :=
  match findIndex (hasId id) projects with
  | none => { result := .notFound, state := projects, saved := false }
  | some i =>
    { result := if writeOk then .ok (projects.getD i []) else .saveFailed
      state := projects.eraseIdx i
      saved := true }

/-! ### Service initialization (`init`) -/

/-- State of the backing JSON file as `init` finds it: absent, present but
not valid JSON, or a parsed array of records. -/
inductive FileState where
  | missing
  | unparsable
  | parsed (records : List Obj)
  deriving DecidableEq, Repr

/-- In-memory state of one service instance. -/
structure ServiceState where
  records : List Obj
  initialized : Bool
  deriving DecidableEq, Repr

/-- Outcome of `init`: the service state afterwards, the file state
afterwards, and whether the error path (`console.error`) was taken. -/
structure InitOut where
  state : ServiceState
  fs : FileState
  loggedError : Bool
  deriving DecidableEq, Repr

/-- `ProjectService.init` (projectService.js lines 18-31): a second call
returns immediately; otherwise read and parse the file; any failure
(missing file included) is caught, logged, and the service proceeds with
an empty list.  The missing file is NOT created. -/
def projectServiceInit (st : ServiceState) (fs : FileState) : InitOut :=
  if st.initialized then { state := st, fs := fs, loggedError := false }
  else
    match fs with
    | .parsed rs =>
      { state := { records := rs, initialized := true }, fs := fs
        loggedError := false }
    | .missing =>
      { state := { records := [], initialized := true }, fs := fs
        loggedError := true }
    | .unparsable =>
      { state := { records := [], initialized := true }, fs := fs
        loggedError := true }

/-- `ArticleService.init` (articleService.js lines 18-36): like
`projectServiceInit`, except that a missing file is first created with
content `[]` and then read back (yielding an empty list with no error). -/
def articleServiceInit (st : ServiceState) (fs : FileState) : InitOut :=
  if st.initialized then { state := st, fs := fs, loggedError := false }
  else
    match fs with
    | .missing =>
      { state := { records := [], initialized := true }, fs := .parsed []
        loggedError := false }
    | .unparsable =>
      { state := { records := [], initialized := true }, fs := fs
        loggedError := true }
    | .parsed rs =>
      { state := { records := rs, initialized := true }, fs := fs
        loggedError := false }

/-! ### Helper lemmas about `nextId`, `findIndex` and id discipline -/

theorem le_foldl_max_init (x : Int) (xs : List Int) : x ≤ xs.foldl max x := by
  induction xs generalizing x with
  | nil => simp
  | cons y ys ih => exact le_trans (le_max_left x y) (ih (max x y))

theorem le_foldl_max_mem {a : Int} (xs : List Int) (x : Int) (h : a ∈ x :: xs) :
    a ≤ xs.foldl max x := by
  induction xs generalizing x with
  | nil =>
    simp only [List.mem_singleton] at h
    simp [h]
  | cons y ys ih =>
    simp only [List.foldl_cons]
    rcases List.mem_cons.mp h with rfl | h'
    · exact le_trans (le_max_left a y) (le_foldl_max_init _ _)
    · rcases List.mem_cons.mp h' with rfl | h''
      · exact le_trans (le_max_right x a) (le_foldl_max_init _ _)
      · exact ih (max x y) (List.mem_cons.mpr (Or.inr h''))

theorem foldl_max_mem (x : Int) (xs : List Int) : xs.foldl max x ∈ x :: xs := by
  induction xs generalizing x with
  | nil => simp
  | cons y ys ih =>
    have h := ih (max x y)
    rcases List.mem_cons.mp h with heq | hmem
    · rcases max_choice x y with hx | hy
      · simp only [List.foldl_cons]
        rw [heq, hx]
        exact List.mem_cons_self _ _
      · simp only [List.foldl_cons]
        rw [heq, hy]
        exact List.mem_cons.mpr (Or.inr (List.mem_cons_self _ _))
    · simp only [List.foldl_cons]
      exact List.mem_cons.mpr (Or.inr (List.mem_cons.mpr (Or.inr hmem)))

theorem recIdNum_lt_nextId {projects : List Obj} {r : Obj} (h : r ∈ projects) :
    recIdNum r < nextId projects := by
  unfold nextId
  cases hm : projects.map recIdNum with
  | nil =>
    rcases List.map_eq_nil_iff.mp hm with rfl
    cases h
  | cons x xs =>
    have hmem : recIdNum r ∈ x :: xs := hm ▸ List.mem_map_of_mem recIdNum h
    have := le_foldl_max_mem xs x hmem
    show recIdNum r < xs.foldl max x + 1
    omega

theorem nextId_eq_succ_of_mem {projects : List Obj} (h : projects ≠ []) :
    ∃ r ∈ projects, nextId projects = recIdNum r + 1 := by
  unfold nextId
  cases hm : projects.map recIdNum with
  | nil => exact absurd (List.map_eq_nil_iff.mp hm) h
  | cons x xs =>
    have hmem : xs.foldl max x ∈ projects.map recIdNum :=
      hm ▸ foldl_max_mem x xs
    rcases List.mem_map.mp hmem with ⟨r, hr, hval⟩
    refine ⟨r, hr, ?_⟩
    show xs.foldl max x + 1 = recIdNum r + 1
    rw [hval]

theorem lookup_id_newRecord {data : Obj} (hd : data.lookup "id" = none)
    (m : Int) :
    (spreadObj [("id", JsVal.num m)] data).lookup "id"
      = some (JsVal.num m) := by
  have h := getProp_spreadObj [("id", JsVal.num m)] data "id"
  unfold getProp at h
  rw [h, hd]
  rfl

theorem findIndex_eq_none_iff (p : Obj → Bool) (l : List Obj) :
    findIndex p l = none ↔ ∀ r ∈ l, p r = false := by
  induction l with
  | nil => simp [findIndex]
  | cons hd tl ih =>
    by_cases hp : p hd
    · simp [findIndex, hp]
    · simp only [findIndex, hp, Bool.false_eq_true, if_false, Option.map_eq_none,
        List.mem_cons]
      rw [Option.map_eq_none']
      constructor
      · intro hnone r hr
        rcases hr with rfl | hr'
        · exact Bool.eq_false_iff.mpr hp
        · exact (ih.mp hnone) r hr'
      · intro hall
        exact ih.mpr (fun r hr => hall r (Or.inr hr))

/-- Ids are pairwise distinct in the store (the §3 uniqueness invariant). -/
def idsDistinct (projects : List Obj) : Prop :=
  projects.Pairwise (fun a b => a.lookup "id" ≠ b.lookup "id")

/-- Every record in the store carries a numeric `id` property (which every
record created by `addProject` does). -/
def idsNumeric (projects : List Obj) : Prop :=
  ∀ r ∈ projects, ∃ n : Int, r.lookup "id" = some (JsVal.num n)

theorem erase_found_find_none (id : Int) (l : List Obj) :
    ∀ i : Nat, findIndex (hasId id) l = some i →
      idsDistinct l →
      (l.eraseIdx i).find? (hasId id) = none := by
  induction l with
  | nil => intro i h; simp [findIndex] at h
  | cons hd tl ih =>
    intro i hfi hpw
    rw [idsDistinct, List.pairwise_cons] at hpw
    obtain ⟨hhd, htl⟩ := hpw
    by_cases hp : hasId id hd
    · have hi : i = 0 := by
        simp [findIndex, hp] at hfi
        omega
      subst hi
      simp only [List.eraseIdx_cons_zero]
      apply List.find?_eq_none.mpr
      intro b hb
      have hhdid : hd.lookup "id" = some (JsVal.num id) := by
        simpa [hasId] using hp
      have hne := hhd b hb
      simp only [hasId, beq_eq_false_iff_ne, ne_eq, beq_iff_eq]
      intro hcontra
      exact hne (hhdid.trans hcontra.symm)
    · simp only [findIndex, hp, Bool.false_eq_true, if_false] at hfi
      rcases Option.map_eq_some'.mp hfi with ⟨j, hj, rfl⟩
      have hmp : hasId id hd = false := Bool.eq_false_iff.mpr hp
      simp only [List.eraseIdx_cons_succ, List.find?_cons, hmp]
      exact ih j hj htl

theorem getById_none_findIndex_none {projects : List Obj} {id : Int}
    (h : getProjectById projects id = none) :
    findIndex (hasId id) projects = none := by
  rw [findIndex_eq_none_iff]
  intro r hr
  have := List.find?_eq_none.mp h r hr
  exact Bool.eq_false_iff.mpr this

/-- Whether a record carries a numeric `id` property. -/
def hasNumericId (r : Obj) : Bool :=
  match r.lookup "id" with
  | some (.num _) => true
  | _ => false

theorem hasNumericId_iff (r : Obj) :
    hasNumericId r = true ↔ ∃ n : Int, r.lookup "id" = some (JsVal.num n) := by
  unfold hasNumericId
  constructor
  · intro h
    split at h
    · next n heq => exact ⟨n, heq⟩
    · exact absurd h (by simp)
  · rintro ⟨n, hn⟩
    rw [hn]

theorem recIdNum_of_lookup {r : Obj} {n : Int}
    (h : r.lookup "id" = some (JsVal.num n)) : recIdNum r = n := by
  unfold recIdNum
  rw [h]

theorem addProject_preserves_distinct {projects : List Obj} {data : Obj}
    (hNum : ∀ r ∈ projects, hasNumericId r = true)
    (hDist : idsDistinct projects)
    (hData : data.lookup "id" = none) (wk : Bool) :
    idsDistinct ((addProject wk projects data).state) := by
  have hnew : (spreadObj [("id", JsVal.num (nextId projects))] data).lookup "id"
      = some (JsVal.num (nextId projects)) := lookup_id_newRecord hData _
  unfold addProject idsDistinct
  simp only
  rw [List.pairwise_append]
  refine ⟨hDist, List.pairwise_singleton _ _, ?_⟩
  intro a ha b hb
  rcases List.mem_singleton.mp hb with rfl
  rcases (hasNumericId_iff a).mp (hNum a ha) with ⟨n, hn⟩
  have hlt : recIdNum a < nextId projects := recIdNum_lt_nextId ha
  rw [recIdNum_of_lookup hn] at hlt
  rw [hn, hnew]
  intro hcontra
  have : n = nextId projects := by
    injection hcontra with h1
    injection h1
  omega

/-! ## Claim theorems for the record store -/

/-- C5: if the full-file rewrite inside `add` fails, `add` throws the
persistence error to the caller, yet the newly appended record remains in
the in-memory list — the state equals the success-path state while the
result is the thrown error, so memory and disk diverge on this path. -/
theorem c5_add_write_failure_not_rolled_back (projects : List Obj)
    (projectData : Obj) :
    (addProject false projects projectData).result = OpResult.saveFailed ∧
    (addProject false projects projectData).saved = true ∧
    (addProject false projects projectData).state
      = projects ++ [spreadObj [("id", JsVal.num (nextId projects))] projectData] ∧
    (addProject false projects projectData).state
      = (addProject true projects projectData).state :=
  ⟨rfl, rfl, rfl, rfl⟩

/-- C10: when the id is not present in the store, `update` and `delete`
return the not-found signal, leave the in-memory list untouched, and never
invoke the full-file rewrite (`saved = false`), independently of whether a
write would have succeeded. -/
theorem c10_notFound_mutations_pure (writeOk : Bool) (projects : List Obj)
    (id : Int) (patch : Obj) (h : getProjectById projects id = none) :
    updateProject writeOk projects id patch
        = { result := .notFound, state := projects, saved := false } ∧
    deleteProject writeOk projects id
        = { result := .notFound, state := projects, saved := false } := by
  have hfi := getById_none_findIndex_none h
  constructor
  · unfold updateProject
    rw [hfi]
  · unfold deleteProject
    rw [hfi]

/-- Witness for C10 at a concrete store and id. -/
theorem c10_notFound_mutations_pure_witness :
    updateProject true [[("id", JsVal.num 1)]] 7 [("title", JsVal.str "x")]
        = { result := .notFound, state := [[("id", JsVal.num 1)]], saved := false } ∧
    deleteProject true [[("id", JsVal.num 1)]] 7
        = { result := .notFound, state := [[("id", JsVal.num 1)]], saved := false } :=
  c10_notFound_mutations_pure true [[("id", JsVal.num 1)]] 7
    [("title", JsVal.str "x")] (by decide)

/-- C4 counterexample: a patch field explicitly present with value
`undefined` DOES overwrite the existing record's field (JS object spread
copies own properties whose value is `undefined`), contradicting the
claim's "patch fields whose value is undefined do not overwrite". -/
theorem c4_undefined_patch_overwrites_cex :
    (updateProject true [[("id", JsVal.num 1), ("title", JsVal.str "a")]] 1
        [("title", JsVal.undef)]).result
      = OpResult.ok ([("id", JsVal.num 1), ("title", JsVal.undef)],
          [("id", JsVal.num 1), ("title", JsVal.str "a")]) ∧
    getProp [("id", JsVal.num 1), ("title", JsVal.undef)] "title"
      = some JsVal.undef ∧
    some JsVal.undef ≠ some (JsVal.str "a") := by decide

/-- C4 (amended): `update(id, patch)` shallow-merges `patch` over the
existing record where every field present in `patch` overwrites (also
fields explicitly set to `undefined`) and only fields absent from `patch`
keep the existing value; it returns both the updated and prior record, and
returns the not-found signal (with no mutation and no write) when no
record has the id. -/
theorem c4_update_shallow_merge (projects : List Obj) (id : Int)
    (patch : Obj) :
    (∀ i : Nat, findIndex (hasId id) projects = some i →
      (updateProject true projects id patch).result
          = OpResult.ok (spreadObj (projects.getD i []) patch,
              projects.getD i []) ∧
      (updateProject true projects id patch).state
          = projects.set i (spreadObj (projects.getD i []) patch) ∧
      (∀ k, getProp (spreadObj (projects.getD i []) patch) k
          = (patch.lookup k).orElse (fun _ => (projects.getD i []).lookup k)) ∧
      (∀ k, patch.lookup k = none →
          getProp (spreadObj (projects.getD i []) patch) k
            = (projects.getD i []).lookup k)) ∧
    (getProjectById projects id = none → ∀ wk : Bool,
      updateProject wk projects id patch
        = { result := .notFound, state := projects, saved := false }) := by
  constructor
  · intro i hfi
    refine ⟨?_, ?_, ?_, ?_⟩
    · unfold updateProject
      rw [hfi]
      rfl
    · unfold updateProject
      rw [hfi]
    · intro k
      exact getProp_spreadObj _ _ _
    · intro k hk
      rw [getProp_spreadObj, hk]
      rfl
  · intro h wk
    have hfi := getById_none_findIndex_none h
    unfold updateProject
    rw [hfi]

/-- Witness for C4's amended theorem at a concrete store, id and patch. -/
theorem c4_update_shallow_merge_witness :
    (updateProject true [[("id", JsVal.num 1), ("title", JsVal.str "a"),
        ("year", JsVal.str "2024")]] 1 [("title", JsVal.str "b")]).result
      = OpResult.ok ([("id", JsVal.num 1), ("title", JsVal.str "b"),
          ("year", JsVal.str "2024")],
          [("id", JsVal.num 1), ("title", JsVal.str "a"),
            ("year", JsVal.str "2024")]) := by
  have h := (c4_update_shallow_merge [[("id", JsVal.num 1),
      ("title", JsVal.str "a"), ("year", JsVal.str "2024")]] 1
      [("title", JsVal.str "b")]).1 0 (by decide)
  rw [h.1]
  decide

/-- C1 counterexample: after deleting the record with the highest id, the
very next `add` re-assigns that same id, so deleted ids ARE reused; here
id `2` is deleted (and `getById 2` then reports not-found) yet the next
`add` returns a record carrying id `2`. -/
theorem c1_deleted_id_reused_cex :
    (deleteProject true [[("id", JsVal.num 1)], [("id", JsVal.num 2)]] 2).result
        = OpResult.ok [("id", JsVal.num 2)] ∧
    getProjectById
        (deleteProject true [[("id", JsVal.num 1)], [("id", JsVal.num 2)]] 2).state
        2 = none ∧
    (addProject true
        (deleteProject true [[("id", JsVal.num 1)], [("id", JsVal.num 2)]] 2).state
        [("title", JsVal.str "c")]).result
      = OpResult.ok [("id", JsVal.num 2), ("title", JsVal.str "c")] := by
  decide

/-- C1 (amended): `add` assigns the new record's id as `max(existing ids)
+ 1` (or `1` if the store is empty); after `delete(id)` succeeds,
`getById(id)` returns not-found; ids stay pairwise distinct within a
store; but a deleted id CAN be reused by a subsequent `add` (exactly when
it exceeded every remaining id), so ids are not never-reused. -/
theorem c1_id_discipline (projects : List Obj) (data : Obj) (id : Int)
    (hNum : ∀ r ∈ projects, hasNumericId r = true)
    (hDist : idsDistinct projects)
    (hData : data.lookup "id" = none) :
    (∃ r : Obj, (addProject true projects data).result = OpResult.ok r ∧
        r.lookup "id" = some (JsVal.num (nextId projects))) ∧
    (projects = [] → nextId projects = 1) ∧
    (∀ r ∈ projects, recIdNum r < nextId projects) ∧
    (projects ≠ [] → ∃ r ∈ projects, nextId projects = recIdNum r + 1) ∧
    (∀ (wk : Bool) (i : Nat), findIndex (hasId id) projects = some i →
        getProjectById (deleteProject wk projects id).state id = none) ∧
    (∀ wk : Bool, idsDistinct ((addProject wk projects data).state)) := by
  refine ⟨?_, ?_, ?_, ?_, ?_, ?_⟩
  · exact ⟨spreadObj [("id", JsVal.num (nextId projects))] data, rfl,
      lookup_id_newRecord hData _⟩
  · rintro rfl
    rfl
  · intro r hr
    exact recIdNum_lt_nextId hr
  · exact nextId_eq_succ_of_mem
  · intro wk i hfi
    have hstate : (deleteProject wk projects id).state = projects.eraseIdx i := by
      unfold deleteProject
      rw [hfi]
    rw [hstate]
    exact erase_found_find_none id projects i hfi hDist
  · exact addProject_preserves_distinct hNum hDist hData

/-- Witness for C1's amended theorem at a concrete two-record store. -/
theorem c1_id_discipline_witness :
    ∃ r : Obj, (addProject true [[("id", JsVal.num 1)], [("id", JsVal.num 2)]]
        [("title", JsVal.str "c")]).result = OpResult.ok r ∧
      r.lookup "id" = some (JsVal.num
        (nextId [[("id", JsVal.num 1)], [("id", JsVal.num 2)]])) :=
  (c1_id_discipline [[("id", JsVal.num 1)], [("id", JsVal.num 2)]]
    [("title", JsVal.str "c")] 2 (by decide)
    (by unfold idsDistinct; decide) (by decide)).1

/-- C7 counterexample: when the backing file is missing,
`ProjectService.init` does NOT create it — the file stays missing (only
`ArticleService.init` creates it), contradicting the claim's "for both
store instances". -/
theorem c7_project_init_no_create_cex :
    (projectServiceInit { records := [], initialized := false }
        FileState.missing).fs = FileState.missing ∧
    FileState.missing ≠ FileState.parsed [] := by decide

theorem init_of_initialized_project {st : ServiceState} (fs : FileState)
    (h : st.initialized = true) :
    projectServiceInit st fs = { state := st, fs := fs, loggedError := false } := by
  unfold projectServiceInit
  rw [if_pos h]

theorem init_of_initialized_article {st : ServiceState} (fs : FileState)
    (h : st.initialized = true) :
    articleServiceInit st fs = { state := st, fs := fs, loggedError := false } := by
  unfold articleServiceInit
  rw [if_pos h]

theorem initialized_after_project (st : ServiceState) (fs : FileState) :
    (projectServiceInit st fs).state.initialized = true := by
  unfold projectServiceInit
  by_cases h : st.initialized
  · rw [if_pos h]
    exact h
  · rw [if_neg h]
    cases fs <;> rfl

theorem initialized_after_article (st : ServiceState) (fs : FileState) :
    (articleServiceInit st fs).state.initialized = true := by
  unfold articleServiceInit
  by_cases h : st.initialized
  · rw [if_pos h]
    exact h
  · rw [if_neg h]
    cases fs <;> rfl

/-- C7 (amended): `init` is idempotent for both stores, and on an
unparsable file both log the error and proceed with an empty list; on a
missing file the articles store creates the file with `[]` and proceeds
empty, while the projects store merely logs and proceeds empty WITHOUT
creating the file. -/
theorem c7_init_semantics :
    (∀ (st : ServiceState) (fs fs' : FileState),
        projectServiceInit (projectServiceInit st fs).state fs'
          = { state := (projectServiceInit st fs).state, fs := fs'
              loggedError := false }) ∧
    (∀ (st : ServiceState) (fs fs' : FileState),
        articleServiceInit (articleServiceInit st fs).state fs'
          = { state := (articleServiceInit st fs).state, fs := fs'
              loggedError := false }) ∧
    (∀ rs₀ : List Obj, projectServiceInit ⟨rs₀, false⟩ .missing
          = { state := ⟨[], true⟩, fs := .missing, loggedError := true }) ∧
    (∀ rs₀ : List Obj, projectServiceInit ⟨rs₀, false⟩ .unparsable
          = { state := ⟨[], true⟩, fs := .unparsable, loggedError := true }) ∧
    (∀ rs₀ : List Obj, articleServiceInit ⟨rs₀, false⟩ .missing
          = { state := ⟨[], true⟩, fs := .parsed [], loggedError := false }) ∧
    (∀ rs₀ : List Obj, articleServiceInit ⟨rs₀, false⟩ .unparsable
          = { state := ⟨[], true⟩, fs := .unparsable, loggedError := true }) ∧
    (∀ (rs₀ rs : List Obj), projectServiceInit ⟨rs₀, false⟩ (.parsed rs)
          = { state := ⟨rs, true⟩, fs := .parsed rs, loggedError := false }) ∧
    (∀ (rs₀ rs : List Obj), articleServiceInit ⟨rs₀, false⟩ (.parsed rs)
          = { state := ⟨rs, true⟩, fs := .parsed rs, loggedError := false }) := by
  refine ⟨?_, ?_, fun rs₀ => rfl, fun rs₀ => rfl, fun rs₀ => rfl,
    fun rs₀ => rfl, fun rs₀ rs => rfl, fun rs₀ rs => rfl⟩
  · intro st fs fs'
    exact init_of_initialized_project fs' (initialized_after_project st fs)
  · intro st fs fs'
    exact init_of_initialized_article fs' (initialized_after_article st fs)

/-! ## Character-list string utilities

The JS string operations the backend uses (`split`, `trim`, `startsWith`,
regex replacement) are embedded as structurally recursive functions over
`List Char`, so that every definition evaluates inside the kernel. -/

/-- The JS `\s` character class (ASCII whitespace plus the Unicode
whitespace code points), as used by `String.prototype.trim` and the `\s`
regex escapes in `validators.js`. -/
def isJsSpace (c : Char) : Bool :=
  c == ' ' || c == '\t' || c == '\n' || c == '\r'
    || c == Char.ofNat 11 || c == Char.ofNat 12
    || c == Char.ofNat 0xa0 || c == Char.ofNat 0x1680
    || (Char.ofNat 0x2000 ≤ c && c ≤ Char.ofNat 0x200a)
    || c == Char.ofNat 0x2028 || c == Char.ofNat 0x2029
    || c == Char.ofNat 0x202f || c == Char.ofNat 0x205f
    || c == Char.ofNat 0x3000 || c == Char.ofNat 0xfeff

/-- `String.prototype.trim`: drop JS whitespace from both ends. -/
def trimWs (l : List Char) : List Char :=
  ((l.dropWhile isJsSpace).reverse.dropWhile isJsSpace).reverse

/-- `String.prototype.split` with a single-character separator
(`'a,b'.split(',') = ['a','b']`, `''.split(',') = ['']`). -/
def splitOnChar (sep : Char) : List Char → List (List Char)
  | [] => [[]]
  | c :: cs =>
    let r := splitOnChar sep cs
    if c = sep then [] :: r
    else
      match r with
      | [] => [[c]]
      | h :: t => (c :: h) :: t

/-- `split` lifted back to `String`. -/
def jsSplit (sep : Char) (s : String) : List String :=
  (splitOnChar sep s.toList).map (fun l => String.mk l)

/-- `trim` lifted back to `String`. -/
def jsTrim (s : String) : String :=
  String.mk (trimWs s.toList)

/-- `String.prototype.startsWith`. -/
def strStartsWith (pre s : String) : Bool :=
  pre.toList.isPrefixOf s.toList

/-! ## Admin gate (`middleware/adminAuth.js`, lines 15-59)

The middleware is embedded as a pure function from the (post-lazy-init)
configuration and the request to an outcome.  JS truthiness of the string
environment values is modelled explicitly (`none` = unset variable; the
empty string is falsy). -/

/-- JS `a || d` for a string-valued `a` (`undefined` and `''` are falsy)
with a string default. -/
def jsOrStr (a : Option String) (d : String) : String :=
  match a with
  | some s => if s = "" then d else s
  | none => d

/-- JS `a || b` for two possibly-undefined strings. -/
def jsOrOpt (a b : Option String) : Option String :=
  match a with
  | some s => if s = "" then b else some s
  | none => b

/-- Environment configuration read by the gate. -/
structure AdminConfig where
  adminAllowedIps : Option String
  nodeEnv : Option String
  adminToken : Option String
  deriving DecidableEq, Repr

/-- The request fields the gate reads. -/
structure AdminReq where
  ip : Option String
  remoteAddress : Option String
  authorization : Option String
  deriving DecidableEq, Repr

/-- Outcome of the gate: a rejection carrying its HTTP status and the
security-event name passed to `logSecurityEvent`, or `next()`. -/
inductive GateOutcome where
  | denied (status : Nat) (event : String)
  | granted
  deriving DecidableEq, Repr

/-- adminAuth.js lines 17-20: the cached `allowedIpsStr` after the lazy
initialization — the raw env value, or `''` when unset/falsy. -/
def adminAllowedIpsStr (cfg : AdminConfig) : String :=
  jsOrStr cfg.adminAllowedIps ""

/-- adminAuth.js line 19: `allowedIpsStr.split(',').map(ip =>
ip.trim()).filter(Boolean)`. -/
def adminAllowedIpList (cfg : AdminConfig) : List String :=
  ((jsSplit ',' (adminAllowedIpsStr cfg)).map jsTrim).filter
    (fun s => s != "")

/-- adminAuth.js line 23: `req.ip || req.connection.remoteAddress`. -/
def adminClientIp (req : AdminReq) : Option String :=
  jsOrOpt req.ip req.remoteAddress

/-- adminAuth.js line 25: the three localhost spellings. -/
def adminIsLocalhost (req : AdminReq) : Bool :=
  adminClientIp req == some "127.0.0.1" || adminClientIp req == some "::1"
    || adminClientIp req == some "::ffff:127.0.0.1"

/-- adminAuth.js line 26: `process.env.NODE_ENV !== 'production'`. -/
def adminIsLocalDev (cfg : AdminConfig) : Bool :=
  cfg.nodeEnv != some "production"

/-- adminAuth.js line 32: `isLocalDev && isLocalhost`. -/
def adminBypassIpCheck (cfg : AdminConfig) (req : AdminReq) : Bool :=
  adminIsLocalDev cfg && adminIsLocalhost req

/-- `allowedIps.includes(clientIp)` (`includes` of an undefined client IP
is false). -/
def adminIpListed (cfg : AdminConfig) (req : AdminReq) : Bool :=
  match adminClientIp req with
  | some s => (adminAllowedIpList cfg).contains s
  | none => false

/-- adminAuth.js line 34: the IP-rejection condition `!bypassIpCheck &&
allowedIpsStr !== '*' && (!allowedIpsStr ||
!allowedIps.includes(clientIp))`. -/
def adminIpDenied (cfg : AdminConfig) (req : AdminReq) : Bool :=
  !adminBypassIpCheck cfg req && adminAllowedIpsStr cfg != "*"
    && (adminAllowedIpsStr cfg == "" || !adminIpListed cfg req)

/-- `adminAuth` (adminAuth.js lines 15-59): IP allowlist check first
(403 + `admin_ip_blocked` log), then Authorization-header shape check
(401 + `admin_auth_missing`), then exact string comparison of the token
against `ADMIN_TOKEN` — with the `admin_secret_token` fallback outside
production — (401 + `admin_auth_failed`), then `next()`. -/
def adminAuth (cfg : AdminConfig) (req : AdminReq) : GateOutcome :=
  if adminIpDenied cfg req then .denied 403 "admin_ip_blocked"
  else
    match req.authorization with
    | none => .denied 401 "admin_auth_missing"
    | some authHeader =>
      if authHeader == "" || !(strStartsWith "Bearer " authHeader) then
        .denied 401 "admin_auth_missing"
      else
        let token := (jsSplit ' ' authHeader).getD 1 ""
        let expectedToken :=
          if adminIsLocalDev cfg then
            some (jsOrStr cfg.adminToken "admin_secret_token")
          else cfg.adminToken
        match expectedToken with
        | none => .denied 401 "admin_auth_failed"
        | some expected =>
          if expected == "" || token != expected then
            .denied 401 "admin_auth_failed"
          else .granted

/-- C2 counterexample: outside production, a localhost client IP that is
NOT in the configured allowlist (and with no wildcard set) bypasses the
IP check entirely and can authenticate with the fallback token — the gate
grants instead of responding 403. -/
theorem c2_dev_localhost_bypass_cex :
    adminAuth
      { adminAllowedIps := some "10.0.0.5", nodeEnv := none,
        adminToken := none }
      { ip := some "127.0.0.1", remoteAddress := none,
        authorization := some "Bearer admin_secret_token" }
      = GateOutcome.granted ∧
    adminIpListed
      { adminAllowedIps := some "10.0.0.5", nodeEnv := none,
        adminToken := none }
      { ip := some "127.0.0.1", remoteAddress := none,
        authorization := some "Bearer admin_secret_token" } = false ∧
    GateOutcome.granted ≠ GateOutcome.denied 403 "admin_ip_blocked" := by
  decide

/-- C2 (amended): for every admin request whose resolved client IP is not
in the allowlist, with the wildcard marker not set, AND which is not the
non-production localhost bypass, the gate responds 403 Forbidden logging
`admin_ip_blocked` without ever performing the bearer-token check (the
outcome is the same for every Authorization header); conversely the token
check is reached only when the IP is allowlisted, the wildcard is set, or
the dev-localhost bypass applies. -/
theorem c2_ip_gate_before_token (cfg : AdminConfig) (req : AdminReq)
    (hNoBypass : adminBypassIpCheck cfg req = false)
    (hNoWild : adminAllowedIpsStr cfg ≠ "*")
    (hNotListed : adminIpListed cfg req = false ∨ adminAllowedIpsStr cfg = "") :
    adminAuth cfg req = .denied 403 "admin_ip_blocked" ∧
    (∀ auth : Option String,
      adminAuth cfg { req with authorization := auth }
        = .denied 403 "admin_ip_blocked") ∧
    (∀ (cfg' : AdminConfig) (req' : AdminReq),
      adminAuth cfg' req' ≠ .denied 403 "admin_ip_blocked" →
        adminBypassIpCheck cfg' req' = true ∨ adminAllowedIpsStr cfg' = "*"
          ∨ (adminAllowedIpsStr cfg' ≠ "" ∧ adminIpListed cfg' req' = true)) := by
  have hdenied : ∀ auth : Option String,
      adminIpDenied cfg { req with authorization := auth } = true := by
    intro auth
    have hsame : adminIpDenied cfg { req with authorization := auth }
        = adminIpDenied cfg req := rfl
    rw [hsame]
    unfold adminIpDenied
    rw [hNoBypass]
    simp only [Bool.not_false, Bool.true_and, Bool.and_eq_true, bne_iff_ne,
      ne_eq, Bool.or_eq_true, beq_iff_eq, Bool.not_eq_true']
    exact ⟨hNoWild, hNotListed.symm.imp id id⟩
  have hmain : adminAuth cfg req = .denied 403 "admin_ip_blocked" := by
    have h := hdenied req.authorization
    have hsame : ({ req with authorization := req.authorization } : AdminReq)
        = req := rfl
    rw [hsame] at h
    unfold adminAuth
    rw [h]
    rfl
  refine ⟨hmain, ?_, ?_⟩
  · intro auth
    unfold adminAuth
    rw [hdenied auth]
    rfl
  · intro cfg' req' hne
    have hfalse : adminIpDenied cfg' req' = false := by
      by_contra hcontra
      rw [Bool.not_eq_false] at hcontra
      apply hne
      unfold adminAuth
      rw [hcontra]
      rfl
    unfold adminIpDenied at hfalse
    rcases Bool.and_eq_false_iff.mp hfalse with h1 | h2
    · rcases Bool.and_eq_false_iff.mp h1 with hb | hw
      · rw [Bool.not_eq_false'] at hb
        exact Or.inl hb
      · refine Or.inr (Or.inl ?_)
        simpa using hw
    · rcases Bool.or_eq_false_iff.mp h2 with ⟨hne', hin⟩
      rw [Bool.not_eq_false'] at hin
      exact Or.inr (Or.inr ⟨by simpa using hne', hin⟩)

/-- Witness for C2's amended theorem: a production config with allowlist
`1.1.1.1` rejects a request from `9.9.9.9` with 403 even though it
carries a valid bearer token. -/
theorem c2_ip_gate_before_token_witness :
    adminAuth
      { adminAllowedIps := some "1.1.1.1", nodeEnv := some "production",
        adminToken := some "tok" }
      { ip := some "9.9.9.9", remoteAddress := none,
        authorization := some "Bearer tok" }
      = GateOutcome.denied 403 "admin_ip_blocked" :=
  (c2_ip_gate_before_token
    { adminAllowedIps := some "1.1.1.1", nodeEnv := some "production",
      adminToken := some "tok" }
    { ip := some "9.9.9.9", remoteAddress := none,
      authorization := some "Bearer tok" }
    (by decide) (by decide) (Or.inl (by decide))).1


/-! ## Per-email rate limiter (`validators.js` lines 285-317) and the
contact handler's email stage (`routes/contact.js` lines 45-59) -/

/-- `email.toLowerCase()`. -/
def jsToLower (s : String) : String :=
  String.mk (s.toList.map Char.toLower)

/-- The module-level `emailSubmissions` map: lower-cased email address to
submission timestamps (ms). -/
abbrev EmailStore := List (String × List Int)

/-- `Map.prototype.set`: replace the binding if present, append it
otherwise. -/
def storeSet : EmailStore → String → List Int → EmailStore
  | [], k, v => [(k, v)]
  | (k', v') :: rest, k, v =>
    if k = k' then (k, v) :: rest else (k', v') :: storeSet rest k v

theorem lookup_storeSet_self (st : EmailStore) (k : String) (v : List Int) :
    (storeSet st k v).lookup k = some v := by
  induction st with
  | nil => simp [storeSet, List.lookup]
  | cons hd tl ih =>
    obtain ⟨k', v'⟩ := hd
    by_cases h : k = k'
    · subst h
      simp [storeSet, List.lookup]
    · have hbeq : (k == k') = false := beq_false_of_ne h
      simp only [storeSet, if_neg h, List.lookup, hbeq, Bool.false_eq_true,
        if_false]
      exact ih

theorem storeSet_storeSet (st : EmailStore) (k : String) (v w : List Int) :
    storeSet (storeSet st k v) k w = storeSet st k w := by
  induction st with
  | nil => simp [storeSet]
  | cons hd tl ih =>
    obtain ⟨k', v'⟩ := hd
    by_cases h : k = k'
    · subst h
      simp [storeSet]
    · simp only [storeSet, if_neg h]
      rw [ih]

/-- The object literal returned by `checkEmailRateLimit`. -/
structure RateResult where
  allowed : Bool
  remaining : Nat
  resetTime : Option Int
  deriving DecidableEq, Repr

/-- `checkEmailRateLimit(email, maxSubmissions, windowMs)`
(validators.js lines 285-317), with the map and the clock explicit:
lower-case the email, ensure a map entry, keep only submissions younger
than the window, deny with `resetTime = validSubmissions[0] + windowMs`
when the window is full, otherwise record `now` and allow. -/
def checkEmailRateLimit (st : EmailStore) (email : String) (now : Int)
    (maxSubmissions : Nat) (windowMs : Int) : RateResult × EmailStore :=
  let key := jsToLower email
  let st1 := if (st.lookup key).isNone then storeSet st key [] else st
  let submissions := (st1.lookup key).getD []
  let valid := submissions.filter (fun t => decide (now - t < windowMs))
  if maxSubmissions ≤ valid.length then
    ({ allowed := false, remaining := 0
       resetTime := some (valid.getD 0 0 + windowMs) }, st1)
  else
    ({ allowed := true, remaining := maxSubmissions - (valid.length + 1)
       resetTime := none }, storeSet st1 key (valid ++ [now]))

/-- `Math.ceil(x / 1000)` on integers (ceiling as negated floor,
`/` being floor division for the positive divisor). -/
def jsCeilDiv1000 (x : Int) : Int :=
  -((-x) / 1000)

/-- What the contact handler does with the limiter verdict. -/
inductive EmailStageOutcome where
  | proceed (remaining : Nat)
  | tooMany (status : Nat) (retryAfter : Int)
  deriving DecidableEq, Repr

/-- contact.js lines 45-59: `checkEmailRateLimit(email, 5, 3600000)`;
when disallowed respond 429 with `retryAfter =
Math.ceil((resetTime - Date.now()) / 1000)`, otherwise continue to the
email-sending stage. -/
def contactEmailLimitStage (st : EmailStore) (email : String) (now : Int) :
    EmailStageOutcome × EmailStore :=
  let (r, st') := checkEmailRateLimit st email now 5 3600000
  if r.allowed then (.proceed r.remaining, st')
  else (.tooMany 429 (jsCeilDiv1000 (r.resetTime.getD 0 - now)), st')

theorem check_allowed_step (st : EmailStore) (e : String) (now : Int)
    (maxS : Nat) (win : Int) (prev : List Int)
    (hprev : st.lookup (jsToLower e) = some prev)
    (hlen : (prev.filter (fun t => decide (now - t < win))).length < maxS) :
    checkEmailRateLimit st e now maxS win
      = ({ allowed := true
           remaining := maxS
             - ((prev.filter (fun t => decide (now - t < win))).length + 1)
           resetTime := none },
         storeSet st (jsToLower e)
           (prev.filter (fun t => decide (now - t < win)) ++ [now])) := by
  unfold checkEmailRateLimit
  simp only [hprev, Option.isNone_some, Bool.false_eq_true, if_false,
    Option.getD_some]
  rw [if_neg (by omega)]

theorem check_first_step (st : EmailStore) (e : String) (now : Int)
    (maxS : Nat) (win : Int) (hmax : 0 < maxS)
    (habsent : st.lookup (jsToLower e) = none) :
    checkEmailRateLimit st e now maxS win
      = ({ allowed := true, remaining := maxS - 1, resetTime := none },
         storeSet st (jsToLower e) [now]) := by
  unfold checkEmailRateLimit
  simp only [habsent, Option.isNone_none, if_true,
    lookup_storeSet_self, Option.getD_some, List.filter_nil,
    List.length_nil, List.nil_append]
  rw [if_neg (by omega), storeSet_storeSet]

theorem check_denied_step (st : EmailStore) (e : String) (now : Int)
    (maxS : Nat) (win : Int) (subs : List Int)
    (hsubs : st.lookup (jsToLower e) = some subs)
    (hlen : maxS ≤ (subs.filter (fun t => decide (now - t < win))).length) :
    checkEmailRateLimit st e now maxS win
      = ({ allowed := false, remaining := 0
           resetTime := some
             ((subs.filter (fun t => decide (now - t < win))).getD 0 0 + win) },
         st) := by
  unfold checkEmailRateLimit
  simp only [hsubs, Option.isNone_some, Bool.false_eq_true, if_false,
    Option.getD_some]
  rw [if_pos hlen]

/-- C6: with the default configuration (5 per 3600000 ms), five allowed
submissions for an email within the window leave remaining counts 4..0;
the 6th check for the same address — case-insensitively keyed — is denied
with `resetTime` equal to the oldest in-window submission plus the window,
and the contact handler then responds 429 with `retryAfter` the number of
seconds (rounded up) until that reset time, which is strictly positive. -/
theorem c6_sixth_submission_denied (e e6 : String) (t1 t2 t3 t4 t5 t6 : Int)
    (h12 : t1 ≤ t2) (h23 : t2 ≤ t3) (h34 : t3 ≤ t4) (h45 : t4 ≤ t5)
    (h56 : t5 ≤ t6) (hwin : t6 - t1 < 3600000)
    (hkey : jsToLower e6 = jsToLower e) :
    ∃ s1 s2 s3 s4 s5 : EmailStore,
      checkEmailRateLimit [] e t1 5 3600000
        = ({ allowed := true, remaining := 4, resetTime := none }, s1) ∧
      checkEmailRateLimit s1 e t2 5 3600000
        = ({ allowed := true, remaining := 3, resetTime := none }, s2) ∧
      checkEmailRateLimit s2 e t3 5 3600000
        = ({ allowed := true, remaining := 2, resetTime := none }, s3) ∧
      checkEmailRateLimit s3 e t4 5 3600000
        = ({ allowed := true, remaining := 1, resetTime := none }, s4) ∧
      checkEmailRateLimit s4 e t5 5 3600000
        = ({ allowed := true, remaining := 0, resetTime := none }, s5) ∧
      checkEmailRateLimit s5 e6 t6 5 3600000
        = ({ allowed := false, remaining := 0
             resetTime := some (t1 + 3600000) }, s5) ∧
      (contactEmailLimitStage s5 e6 t6).1
        = EmailStageOutcome.tooMany 429 (jsCeilDiv1000 (t1 + 3600000 - t6)) ∧
      0 < jsCeilDiv1000 (t1 + 3600000 - t6) := by
  have hf2 : List.filter (fun t => decide (t2 - t < 3600000)) [t1] = [t1] := by
    have hc : t2 - t1 < 3600000 := by omega
    simp [List.filter, hc]
  have hf3 : List.filter (fun t => decide (t3 - t < 3600000)) [t1, t2]
      = [t1, t2] := by
    have hc1 : t3 - t1 < 3600000 := by omega
    have hc2 : t3 - t2 < 3600000 := by omega
    simp [List.filter, hc1, hc2]
  have hf4 : List.filter (fun t => decide (t4 - t < 3600000)) [t1, t2, t3]
      = [t1, t2, t3] := by
    have hc1 : t4 - t1 < 3600000 := by omega
    have hc2 : t4 - t2 < 3600000 := by omega
    have hc3 : t4 - t3 < 3600000 := by omega
    simp [List.filter, hc1, hc2, hc3]
  have hf5 : List.filter (fun t => decide (t5 - t < 3600000)) [t1, t2, t3, t4]
      = [t1, t2, t3, t4] := by
    have hc1 : t5 - t1 < 3600000 := by omega
    have hc2 : t5 - t2 < 3600000 := by omega
    have hc3 : t5 - t3 < 3600000 := by omega
    have hc4 : t5 - t4 < 3600000 := by omega
    simp [List.filter, hc1, hc2, hc3, hc4]
  have hf6 : List.filter (fun t => decide (t6 - t < 3600000))
      [t1, t2, t3, t4, t5] = [t1, t2, t3, t4, t5] := by
    have hc1 : t6 - t1 < 3600000 := by omega
    have hc2 : t6 - t2 < 3600000 := by omega
    have hc3 : t6 - t3 < 3600000 := by omega
    have hc4 : t6 - t4 < 3600000 := by omega
    have hc5 : t6 - t5 < 3600000 := by omega
    simp [List.filter, hc1, hc2, hc3, hc4, hc5]
  have h1 : checkEmailRateLimit [] e t1 5 3600000
      = ({ allowed := true, remaining := 4, resetTime := none },
         [(jsToLower e, [t1])]) := by
    rw [check_first_step [] e t1 5 3600000 (by norm_num) rfl]
    rfl
  have h2 : checkEmailRateLimit [(jsToLower e, [t1])] e t2 5 3600000
      = ({ allowed := true, remaining := 3, resetTime := none },
         [(jsToLower e, [t1, t2])]) := by
    rw [check_allowed_step _ _ _ _ _ [t1] (by simp [List.lookup])
      (by simp [hf2])]
    simp [hf2, storeSet]
  have h3 : checkEmailRateLimit [(jsToLower e, [t1, t2])] e t3 5 3600000
      = ({ allowed := true, remaining := 2, resetTime := none },
         [(jsToLower e, [t1, t2, t3])]) := by
    rw [check_allowed_step _ _ _ _ _ [t1, t2] (by simp [List.lookup])
      (by simp [hf3])]
    simp [hf3, storeSet]
  have h4 : checkEmailRateLimit [(jsToLower e, [t1, t2, t3])] e t4 5 3600000
      = ({ allowed := true, remaining := 1, resetTime := none },
         [(jsToLower e, [t1, t2, t3, t4])]) := by
    rw [check_allowed_step _ _ _ _ _ [t1, t2, t3] (by simp [List.lookup])
      (by simp [hf4])]
    simp [hf4, storeSet]
  have h5 : checkEmailRateLimit [(jsToLower e, [t1, t2, t3, t4])] e t5
        5 3600000
      = ({ allowed := true, remaining := 0, resetTime := none },
         [(jsToLower e, [t1, t2, t3, t4, t5])]) := by
    rw [check_allowed_step _ _ _ _ _ [t1, t2, t3, t4] (by simp [List.lookup])
      (by simp [hf5])]
    simp [hf5, storeSet]
  have h6 : checkEmailRateLimit [(jsToLower e, [t1, t2, t3, t4, t5])] e6 t6
        5 3600000
      = ({ allowed := false, remaining := 0
           resetTime := some (t1 + 3600000) },
         [(jsToLower e, [t1, t2, t3, t4, t5])]) := by
    rw [check_denied_step _ _ _ _ _ [t1, t2, t3, t4, t5]
      (by rw [hkey]; simp [List.lookup]) (by simp [hf6])]
    simp [hf6]
  have h7 : (contactEmailLimitStage [(jsToLower e, [t1, t2, t3, t4, t5])]
        e6 t6).1
      = EmailStageOutcome.tooMany 429 (jsCeilDiv1000 (t1 + 3600000 - t6)) := by
    unfold contactEmailLimitStage
    rw [h6]
    rfl
  have h8 : 0 < jsCeilDiv1000 (t1 + 3600000 - t6) := by
    unfold jsCeilDiv1000
    omega
  exact ⟨[(jsToLower e, [t1])], [(jsToLower e, [t1, t2])],
    [(jsToLower e, [t1, t2, t3])], [(jsToLower e, [t1, t2, t3, t4])],
    [(jsToLower e, [t1, t2, t3, t4, t5])], h1, h2, h3, h4, h5, h6, h7, h8⟩

/-- Witness for C6 at concrete timestamps 0..5 ms and a case-variant
email pair. -/
theorem c6_sixth_submission_denied_witness :
    ∃ s1 s2 s3 s4 s5 : EmailStore,
      checkEmailRateLimit [] "User@Example.com" 0 5 3600000
        = ({ allowed := true, remaining := 4, resetTime := none }, s1) ∧
      checkEmailRateLimit s1 "User@Example.com" 1 5 3600000
        = ({ allowed := true, remaining := 3, resetTime := none }, s2) ∧
      checkEmailRateLimit s2 "User@Example.com" 2 5 3600000
        = ({ allowed := true, remaining := 2, resetTime := none }, s3) ∧
      checkEmailRateLimit s3 "User@Example.com" 3 5 3600000
        = ({ allowed := true, remaining := 1, resetTime := none }, s4) ∧
      checkEmailRateLimit s4 "User@Example.com" 4 5 3600000
        = ({ allowed := true, remaining := 0, resetTime := none }, s5) ∧
      checkEmailRateLimit s5 "user@example.COM" 5 5 3600000
        = ({ allowed := false, remaining := 0
             resetTime := some 3600000 }, s5) ∧
      (contactEmailLimitStage s5 "user@example.COM" 5).1
        = EmailStageOutcome.tooMany 429 (jsCeilDiv1000 3599995) ∧
      0 < jsCeilDiv1000 3599995 := by
  have h := c6_sixth_submission_denied "User@Example.com" "user@example.COM"
    0 1 2 3 4 5 (by norm_num) (by norm_num) (by norm_num) (by norm_num)
    (by norm_num) (by norm_num) (by decide)
  simpa using h

/-! ## Contact pipeline stage 1: the `contactLimiter`
(`config/security.js` lines 181-205, `routes/contact.js` lines 28-34)

The limiter's window bookkeeping lives in the `express-rate-limit`
library, which is not part of the repository sources; only its
configuration (window, max, key generator, 429 handler) is.  The window
mechanics below are therefore modelled from the spec ("sliding window,
fixed max per window"); the key generator is embedded from the source. -/

/-- The request fields the contact route's middleware reads. -/
structure ContactReq where
  ip : Option String
  remoteAddress : Option String
  bodyEmail : Option String
  deriving DecidableEq, Repr

/-- config/security.js lines 194-199: the `contactLimiter` key generator
`` `${ip}:${email}` `` with `email = req.body?.email || 'unknown'` and
`ip = req.ip || req.connection.remoteAddress || 'unknown'`. -/
def contactLimiterKey (req : ContactReq) : String :=
  let email := jsOrStr req.bodyEmail "unknown"
  let ip := jsOrStr (jsOrOpt req.ip req.remoteAddress) "unknown"
  ip ++ ":" ++ email

/-- Per-key hit timestamps of the limiter store. -/
abbrev LimiterState := List (String × List Int)

/-- Outcome of the limiter stage: the 429 short-circuit, or the response
of the rest of the middleware chain. -/
inductive Stage1Result (ρ : Type) where
  | tooMany (status : Nat)
  | next (r : ρ)
  deriving DecidableEq, Repr

/-- Modelled from the spec: the sliding-window counter behind
`contactLimiter` (§4.3 stage 1; the `express-rate-limit` internals are
not in src/).  The stage counts this key's hits inside the trailing
window; at or beyond the maximum it responds 429 and the rest of the
chain — `rest`, standing for attack-pattern scan, validation and the
handler — never runs; otherwise it records the hit and calls through.
With the default env, `maxS = 5` and `windowMs = 3600000`. -/
def contactPipeline {ρ : Type} (rest : ContactReq → ρ) (maxS : Nat)
    (windowMs : Int) (st : LimiterState) (req : ContactReq) (now : Int) :
    Stage1Result ρ × LimiterState :=
  let key := contactLimiterKey req
  let hits := ((st.lookup key).getD []).filter
    (fun t => decide (now - t < windowMs))
  if maxS ≤ hits.length then (.tooMany 429, st)
  else (.next (rest req), storeSet st key (hits ++ [now]))

/-- C3 counterexample: the limiter is NOT keyed by the client IP alone —
the key is `ip:email`.  With the window for `1.2.3.4:a@b.com` exhausted,
a repeat of that request is 429, but the very next request from the SAME
IP with a different body email passes stage 1 and reaches the rest of the
pipeline, contradicting "429 ... regardless of the email in the body". -/
theorem c3_limiter_not_ip_keyed_cex :
    (contactPipeline (fun _ => "later stages") 5 3600000
        [("1.2.3.4:a@b.com", [0, 0, 0, 0, 0])]
        { ip := some "1.2.3.4", remoteAddress := none,
          bodyEmail := some "a@b.com" } 10).1
      = Stage1Result.tooMany 429 ∧
    (contactPipeline (fun _ => "later stages") 5 3600000
        [("1.2.3.4:a@b.com", [0, 0, 0, 0, 0])]
        { ip := some "1.2.3.4", remoteAddress := none,
          bodyEmail := some "c@d.com" } 10).1
      = Stage1Result.next "later stages" ∧
    contactLimiterKey
        { ip := some "1.2.3.4", remoteAddress := none,
          bodyEmail := some "a@b.com" }
      ≠ contactLimiterKey
        { ip := some "1.2.3.4", remoteAddress := none,
          bodyEmail := some "c@d.com" } := by
  decide

/-- C3 (amended): the first stage of the contact pipeline is the
spec-modelled sliding-window limiter keyed by the COMBINATION
`ip:email` from the source key generator; for every request whose key
has reached the per-window maximum, the stage responds 429 immediately
with the limiter state unchanged, and no further pipeline stage runs —
the outcome is the same for every continuation `rest`. -/
theorem c3_stage1_short_circuit {ρ ρ' : Type} (rest : ContactReq → ρ)
    (rest' : ContactReq → ρ') (maxS : Nat) (win : Int) (st : LimiterState)
    (req : ContactReq) (now : Int)
    (h : maxS ≤ (((st.lookup (contactLimiterKey req)).getD []).filter
        (fun t => decide (now - t < win))).length) :
    contactPipeline rest maxS win st req now = (.tooMany 429, st) ∧
    (contactPipeline rest' maxS win st req now).1 = .tooMany 429 ∧
    (contactPipeline rest' maxS win st req now).2
      = (contactPipeline rest maxS win st req now).2 := by
  have hr : contactPipeline rest maxS win st req now = (.tooMany 429, st) := by
    unfold contactPipeline
    rw [if_pos h]
  have hr' : contactPipeline rest' maxS win st req now = (.tooMany 429, st) := by
    unfold contactPipeline
    rw [if_pos h]
  rw [hr, hr']
  exact ⟨rfl, rfl, rfl⟩

/-- Witness for C3's amended theorem at a concrete exhausted key. -/
theorem c3_stage1_short_circuit_witness :
    contactPipeline (fun _ => "later stages") 5 3600000
        [("9.9.9.9:x@y.com", [1, 2, 3, 4, 5])]
        { ip := some "9.9.9.9", remoteAddress := none,
          bodyEmail := some "x@y.com" } 100
      = (Stage1Result.tooMany 429, [("9.9.9.9:x@y.com", [1, 2, 3, 4, 5])]) :=
  (c3_stage1_short_circuit (fun _ => "later stages") (fun _ => "later stages")
    5 3600000 [("9.9.9.9:x@y.com", [1, 2, 3, 4, 5])]
    { ip := some "9.9.9.9", remoteAddress := none,
      bodyEmail := some "x@y.com" } 100 (by decide)).1

/-! ## The message sanitizer (`validators.js` lines 84-120)

`sanitizeMessage` chains nine `String.replace` calls with global regexes.
Each regex is embedded as a hand-written deterministic matcher (every one
of these patterns is backtracking-free) returning the length of the match
at the head of the input, and `String.replace(re, '')` as a left-to-right
scan deleting non-overlapping matches without rescanning its own output
(exactly the JS semantics: the replacement result is NOT rescanned). -/

/-- One pattern character (lowercase letter or symbol) matched
case-insensitively (`/i`). -/
def chMatch (p c : Char) : Bool :=
  c == p || (p.isLower && c.toNat == p.toNat - 32)

/-- Does the pattern match a prefix of the input, case-insensitively? -/
def headMatchCI : List Char → List Char → Bool
  | [], _ => true
  | _ :: _, [] => false
  | p :: ps, c :: cs => chMatch p c && headMatchCI ps cs

/-- Index of the earliest case-insensitive occurrence of `pat`. -/
def findSubCI (pat : List Char) : List Char → Option Nat
  | [] => if headMatchCI pat [] then some 0 else none
  | c :: cs =>
    if headMatchCI pat (c :: cs) then some 0
    else (findSubCI pat cs).map (· + 1)

/-- The JS `\w` class `[A-Za-z0-9_]`. -/
def isWordChar (c : Char) : Bool :=
  ('a' ≤ c && c ≤ 'z') || ('A' ≤ c && c ≤ 'Z') || ('0' ≤ c && c ≤ '9')
    || c == '_'

/-- Matcher for `/<TAG[^>]*>[\s\S]*?<\/TAG>/gi` at the head of the input:
the literal `<TAG`, then everything up to the first `>`, then lazily up
to the earliest `</TAG>`. -/
def matchBlockFor (tag : List Char) (s : List Char) : Option Nat :=
  if headMatchCI ('<' :: tag) s then
    let rest := s.drop (1 + tag.length)
    match rest.findIdx? (fun c => c == '>') with
    | none => none
    | some j =>
      let after := rest.drop (j + 1)
      match findSubCI ('<' :: '/' :: (tag ++ ['>'])) after with
      | none => none
      | some k => some (1 + tag.length + j + 1 + k + (tag.length + 3))
  else none

/-- Matcher for the inline-event-handler regex
`/\s*on\w+\s*=\s*["'][^"']*["']/gi` (each starred piece is greedy but
followed by a disjoint character class, so the match is deterministic). -/
def matchEventHandler (s : List Char) : Option Nat :=
  let n1 := (s.takeWhile isJsSpace).length
  let s1 := s.drop n1
  if headMatchCI ['o', 'n'] s1 then
    let s2 := s1.drop 2
    let w := (s2.takeWhile isWordChar).length
    if w == 0 then none
    else
      let s3 := s2.drop w
      let n2 := (s3.takeWhile isJsSpace).length
      let s4 := s3.drop n2
      match s4 with
      | '=' :: s5 =>
        let n3 := (s5.takeWhile isJsSpace).length
        let s6 := s5.drop n3
        match s6 with
        | q :: s7 =>
          if q == '"' || q == '\'' then
            let b := (s7.takeWhile (fun c => !(c == '"' || c == '\''))).length
            let s8 := s7.drop b
            match s8 with
            | q2 :: _ =>
              if q2 == '"' || q2 == '\'' then
                some (n1 + 2 + w + n2 + 1 + n3 + 1 + b + 1)
              else none
            | [] => none
          else none
        | [] => none
      | _ => none
  else none

/-- Matcher for `/(javascript|data):/gi`. -/
def matchProto (s : List Char) : Option Nat :=
  if headMatchCI "javascript:".toList s then some 11
  else if headMatchCI "data:".toList s then some 5
  else none

/-- Matcher for `/<(iframe|object|embed|form)[^>]*>[\s\S]*?<\/\1>/gi`
(the four alternatives are mutually prefix-free, so ordered trial is the
regex's behaviour; the `\1` backreference forces the same tag in the
closing position). -/
def matchTagBlock (s : List Char) : Option Nat :=
  (matchBlockFor "iframe".toList s).orElse (fun _ =>
    (matchBlockFor "object".toList s).orElse (fun _ =>
      (matchBlockFor "embed".toList s).orElse (fun _ =>
        matchBlockFor "form".toList s)))

/-- Matcher for a single dangerous open tag `<TAG[^>]*>` at the head. -/
def matchOpenTagFor (tag : List Char) (s : List Char) : Option Nat :=
  if headMatchCI ('<' :: tag) s then
    let rest := s.drop (1 + tag.length)
    match rest.findIdx? (fun c => c == '>') with
    | none => none
    | some j => some (1 + tag.length + j + 1)
  else none

/-- validators.js line 105, the `dangerousTags` regex
`/<(script|iframe|object|embed|form|input|textarea|button|link|meta)[^>]*>/gi`. -/
def matchDangerousTag (s : List Char) : Option Nat :=
  (matchOpenTagFor "script".toList s).orElse (fun _ =>
  (matchOpenTagFor "iframe".toList s).orElse (fun _ =>
  (matchOpenTagFor "object".toList s).orElse (fun _ =>
  (matchOpenTagFor "embed".toList s).orElse (fun _ =>
  (matchOpenTagFor "form".toList s).orElse (fun _ =>
  (matchOpenTagFor "input".toList s).orElse (fun _ =>
  (matchOpenTagFor "textarea".toList s).orElse (fun _ =>
  (matchOpenTagFor "button".toList s).orElse (fun _ =>
  (matchOpenTagFor "link".toList s).orElse (fun _ =>
  matchOpenTagFor "meta".toList s)))))))))

/-- One global-regex deletion pass: scan left to right, delete each
non-overlapping match (the matcher returns its length, always ≥ 1),
continue AFTER the deleted span — the output is never rescanned, exactly
like `String.replace(/re/g, '')`.  The fuel (the input length) only
serves structural termination. -/
def scanRemoveFuel (m : List Char → Option Nat) :
    Nat → List Char → List Char
  | 0, s => s
  | _ + 1, [] => []
  | fuel + 1, c :: cs =>
    match m (c :: cs) with
    | some k => scanRemoveFuel m fuel ((c :: cs).drop k)
    | none => c :: scanRemoveFuel m fuel cs

def scanRemove (m : List Char → Option Nat) (s : List Char) : List Char :=
  scanRemoveFuel m s.length s

/-- `replace(/</g, '&lt;')` at one character. -/
def escLt (c : Char) : List Char :=
  if c == '<' then "&lt;".toList else [c]

/-- `replace(/>/g, '&gt;')` at one character. -/
def escGt (c : Char) : List Char :=
  if c == '>' then "&gt;".toList else [c]

/-- First half of `replace(/\s+/g, ' ')`: each whitespace character
becomes a space. -/
def wsToSpace (c : Char) : Char :=
  if isJsSpace c then ' ' else c

/-- Second half of `replace(/\s+/g, ' ')`: collapse adjacent spaces. -/
def squeezeSpaces : List Char → List Char
  | [] => []
  | [c] => [c]
  | a :: b :: rest =>
    if a == ' ' && b == ' ' then squeezeSpaces (b :: rest)
    else a :: squeezeSpaces (b :: rest)

/-- The nine replacement stages of `sanitizeMessage` (validators.js lines
87-119) on the character list: strip `<script>…</script>` blocks, inline
event handlers, `javascript:`/`data:` markers, `<iframe|object|embed|
form>…</…>` blocks, `<style>…</style>` blocks and dangerous open tags;
escape the remaining angle brackets; drop null bytes; collapse whitespace
runs and trim. -/
def sanitizeChars (s : List Char) : List Char :=
  let s1 := scanRemove (matchBlockFor "script".toList) s
  let s2 := scanRemove matchEventHandler s1
  let s3 := scanRemove matchProto s2
  let s4 := scanRemove matchTagBlock s3
  let s5 := scanRemove (matchBlockFor "style".toList) s4
  let s6 := scanRemove matchDangerousTag s5
  let s7 := s6.flatMap escLt
  let s8 := s7.flatMap escGt
  let s9 := s8.filter (fun c => !(c == Char.ofNat 0))
  let s10 := squeezeSpaces (s9.map wsToSpace)
  trimWs s10

/-- `sanitizeMessage` (validators.js lines 84-120); the guard returns `''`
for the one falsy string. -/
def sanitizeMessage (text : String) : String :=
  if text = "" then "" else String.mk (sanitizeChars text.toList)

/-! ### Lemmas about the sanitizer stages -/

theorem chMatch_lt_eq {c : Char} (h : chMatch '<' c = true) : c = '<' := by
  unfold chMatch at h
  have hlow : ('<').isLower = false := by decide
  rw [hlow] at h
  simp at h
  exact h

theorem headMatchCI_head {p : Char} {ps cs : List Char} {c : Char}
    (h : headMatchCI (p :: ps) (c :: cs) = true) : chMatch p c = true := by
  simp only [headMatchCI, Bool.and_eq_true] at h
  exact h.1

theorem scanRemoveFuel_eq_self (m : List Char → Option Nat) :
    ∀ (fuel : Nat) (l : List Char), (∀ t, t <:+ l → m t = none) →
      scanRemoveFuel m fuel l = l := by
  intro fuel
  induction fuel with
  | zero => intro l _; rfl
  | succ f ih =>
    intro l h
    cases l with
    | nil => rfl
    | cons c cs =>
      have hm : m (c :: cs) = none := h _ (List.suffix_refl _)
      unfold scanRemoveFuel
      rw [hm]
      show c :: scanRemoveFuel m f cs = c :: cs
      rw [ih cs (fun t ht => h t (ht.trans (List.suffix_cons c cs)))]

theorem scanRemove_eq_self {m : List Char → Option Nat} {l : List Char}
    (h : ∀ t, t <:+ l → m t = none) : scanRemove m l = l :=
  scanRemoveFuel_eq_self m l.length l h

theorem scanRemove_eq_self_of_no_lt {m : List Char → Option Nat}
    (hm : ∀ t, m t ≠ none → ∃ cs, t = '<' :: cs)
    {l : List Char} (hl : '<' ∉ l) : scanRemove m l = l := by
  apply scanRemove_eq_self
  intro t ht
  by_contra hne
  rcases hm t hne with ⟨cs, rfl⟩
  exact hl (ht.subset (List.mem_cons_self _ _))

theorem matchBlockFor_ltHeaded (tag : List Char) :
    ∀ t, matchBlockFor tag t ≠ none → ∃ cs, t = '<' :: cs := by
  intro t h
  unfold matchBlockFor at h
  by_cases hh : headMatchCI ('<' :: tag) t = true
  · cases t with
    | nil => simp [headMatchCI] at hh
    | cons c cs => exact ⟨cs, by rw [chMatch_lt_eq (headMatchCI_head hh)]⟩
  · rw [if_neg hh] at h
    exact absurd rfl h

theorem matchOpenTagFor_ltHeaded (tag : List Char) :
    ∀ t, matchOpenTagFor tag t ≠ none → ∃ cs, t = '<' :: cs := by
  intro t h
  unfold matchOpenTagFor at h
  by_cases hh : headMatchCI ('<' :: tag) t = true
  · cases t with
    | nil => simp [headMatchCI] at hh
    | cons c cs => exact ⟨cs, by rw [chMatch_lt_eq (headMatchCI_head hh)]⟩
  · rw [if_neg hh] at h
    exact absurd rfl h

theorem orElse_ne_none {α : Type} {a : Option α} {f : Unit → Option α}
    (h : a.orElse f ≠ none) : a ≠ none ∨ f () ≠ none := by
  cases ha : a with
  | some v => exact Or.inl (by simp [ha])
  | none =>
    right
    rw [ha] at h
    simpa [Option.orElse] using h

theorem matchTagBlock_ltHeaded :
    ∀ t, matchTagBlock t ≠ none → ∃ cs, t = '<' :: cs := by
  intro t h
  unfold matchTagBlock at h
  rcases orElse_ne_none h with h1 | h
  · exact matchBlockFor_ltHeaded _ t h1
  rcases orElse_ne_none h with h1 | h
  · exact matchBlockFor_ltHeaded _ t h1
  rcases orElse_ne_none h with h1 | h
  · exact matchBlockFor_ltHeaded _ t h1
  exact matchBlockFor_ltHeaded _ t h

theorem matchDangerousTag_ltHeaded :
    ∀ t, matchDangerousTag t ≠ none → ∃ cs, t = '<' :: cs := by
  intro t h
  unfold matchDangerousTag at h
  rcases orElse_ne_none h with h1 | h
  · exact matchOpenTagFor_ltHeaded _ t h1
  rcases orElse_ne_none h with h1 | h
  · exact matchOpenTagFor_ltHeaded _ t h1
  rcases orElse_ne_none h with h1 | h
  · exact matchOpenTagFor_ltHeaded _ t h1
  rcases orElse_ne_none h with h1 | h
  · exact matchOpenTagFor_ltHeaded _ t h1
  rcases orElse_ne_none h with h1 | h
  · exact matchOpenTagFor_ltHeaded _ t h1
  rcases orElse_ne_none h with h1 | h
  · exact matchOpenTagFor_ltHeaded _ t h1
  rcases orElse_ne_none h with h1 | h
  · exact matchOpenTagFor_ltHeaded _ t h1
  rcases orElse_ne_none h with h1 | h
  · exact matchOpenTagFor_ltHeaded _ t h1
  rcases orElse_ne_none h with h1 | h
  · exact matchOpenTagFor_ltHeaded _ t h1
  exact matchOpenTagFor_ltHeaded _ t h

theorem not_lt_mem_flatMap_escLt (l : List Char) : '<' ∉ l.flatMap escLt := by
  intro h
  rcases List.mem_flatMap.mp h with ⟨c, _, hc⟩
  unfold escLt at hc
  by_cases h2 : (c == '<') = true
  · rw [if_pos h2] at hc
    exact absurd hc (by decide)
  · rw [if_neg h2] at hc
    rw [List.mem_singleton] at hc
    simp at h2
    exact h2 hc.symm

theorem not_gt_mem_flatMap_escGt (l : List Char) : '>' ∉ l.flatMap escGt := by
  intro h
  rcases List.mem_flatMap.mp h with ⟨c, _, hc⟩
  unfold escGt at hc
  by_cases h2 : (c == '>') = true
  · rw [if_pos h2] at hc
    exact absurd hc (by decide)
  · rw [if_neg h2] at hc
    rw [List.mem_singleton] at hc
    simp at h2
    exact h2 hc.symm

theorem no_lt_flatMap_escGt {l : List Char} (h : '<' ∉ l) :
    '<' ∉ l.flatMap escGt := by
  intro hmem
  rcases List.mem_flatMap.mp hmem with ⟨c, hcl, hc⟩
  unfold escGt at hc
  by_cases h2 : (c == '>') = true
  · rw [if_pos h2] at hc
    exact absurd hc (by decide)
  · rw [if_neg h2] at hc
    rw [List.mem_singleton] at hc
    exact h (hc ▸ hcl)

theorem mem_squeezeSpaces : ∀ (l : List Char) (a : Char),
    a ∈ squeezeSpaces l → a ∈ l := by
  intro l
  induction l with
  | nil => intro a h; simp [squeezeSpaces] at h
  | cons b tl ih =>
    cases tl with
    | nil => intro a h; simpa [squeezeSpaces] using h
    | cons c rest =>
      intro a h
      unfold squeezeSpaces at h
      by_cases hbc : (b == ' ' && c == ' ') = true
      · rw [if_pos hbc] at h
        exact List.mem_cons.mpr (Or.inr (ih a h))
      · rw [if_neg hbc] at h
        rcases List.mem_cons.mp h with rfl | h'
        · exact List.mem_cons_self _ _
        · exact List.mem_cons.mpr (Or.inr (ih a h'))

theorem mem_trimWs {l : List Char} {a : Char} (h : a ∈ trimWs l) : a ∈ l := by
  unfold trimWs at h
  rw [List.mem_reverse] at h
  have h1 := (List.dropWhile_suffix isJsSpace).subset h
  rw [List.mem_reverse] at h1
  exact (List.dropWhile_suffix isJsSpace).subset h1

theorem wsNormal_map (l : List Char) :
    ∀ a ∈ l.map wsToSpace, isJsSpace a = true → a = ' ' := by
  intro a ha hs
  rcases List.mem_map.mp ha with ⟨c, _, rfl⟩
  unfold wsToSpace at hs ⊢
  by_cases hc : isJsSpace c = true
  · rw [if_pos hc]
  · rw [if_neg hc] at hs ⊢
    exact absurd hs hc

theorem squeeze_head (b : Char) : ∀ (l : List Char),
    (squeezeSpaces (b :: l)).head? = some b := by
  intro l
  induction l generalizing b with
  | nil => rfl
  | cons c rest ih =>
    unfold squeezeSpaces
    by_cases hbc : (b == ' ' && c == ' ') = true
    · rw [if_pos hbc]
      have hb : b = ' ' ∧ c = ' ' := by simpa using hbc
      rw [hb.1, ← hb.2]
      exact ih c
    · rw [if_neg hbc]
      rfl

theorem chain_squeezeSpaces : ∀ (l : List Char),
    List.Chain' (fun a b => ¬(a = ' ' ∧ b = ' ')) (squeezeSpaces l) := by
  intro l
  induction l with
  | nil => simp [squeezeSpaces]
  | cons b tl ih =>
    cases tl with
    | nil => simp [squeezeSpaces]
    | cons c rest =>
      unfold squeezeSpaces
      by_cases hbc : (b == ' ' && c == ' ') = true
      · rw [if_pos hbc]
        exact ih
      · rw [if_neg hbc]
        rw [List.chain'_cons']
        refine ⟨?_, ih⟩
        intro y hy
        rw [squeeze_head c rest] at hy
        rcases Option.mem_some_iff.mp hy with rfl
        intro ⟨h1, h2⟩
        exact hbc (by rw [h1, h2]; rfl)

theorem squeeze_eq_self : ∀ (l : List Char),
    List.Chain' (fun a b => ¬(a = ' ' ∧ b = ' ')) l → squeezeSpaces l = l := by
  intro l
  induction l with
  | nil => intro _; rfl
  | cons b tl ih =>
    cases tl with
    | nil => intro _; rfl
    | cons c rest =>
      intro h
      rw [List.chain'_cons] at h
      unfold squeezeSpaces
      rw [if_neg (by
        intro hbc
        exact h.1 (by simpa using hbc))]
      rw [ih h.2]

theorem chain_dropWhile {R : Char → Char → Prop} (p : Char → Bool) :
    ∀ (l : List Char), List.Chain' R l → List.Chain' R (l.dropWhile p) := by
  intro l
  induction l with
  | nil => intro h; exact h
  | cons c cs ih =>
    intro h
    unfold List.dropWhile
    by_cases hc : p c = true
    · rw [hc]
      exact ih h.tail
    · rw [Bool.not_eq_true] at hc
      rw [hc]
      exact h

theorem chain_flip_of_chain {l : List Char}
    (h : List.Chain' (fun a b => ¬(a = ' ' ∧ b = ' ')) l) :
    List.Chain' (flip (fun a b : Char => ¬(a = ' ' ∧ b = ' '))) l :=
  List.Chain'.imp (fun _ _ hab hba => hab ⟨hba.2, hba.1⟩) h

theorem chain_trimWs {l : List Char}
    (h : List.Chain' (fun a b => ¬(a = ' ' ∧ b = ' ')) l) :
    List.Chain' (fun a b => ¬(a = ' ' ∧ b = ' ')) (trimWs l) := by
  unfold trimWs
  have h1 := chain_dropWhile isJsSpace l h
  have h2 : List.Chain' (fun a b => ¬(a = ' ' ∧ b = ' '))
      (l.dropWhile isJsSpace).reverse :=
    List.chain'_reverse.mpr (chain_flip_of_chain h1)
  have h3 := chain_dropWhile isJsSpace _ h2
  exact List.chain'_reverse.mpr (chain_flip_of_chain h3)

theorem dropWhile_head_not {p : Char → Bool} :
    ∀ {l : List Char} {c : Char}, (l.dropWhile p).head? = some c →
      p c = false := by
  intro l
  induction l with
  | nil => intro c h; simp [List.dropWhile] at h
  | cons b tl ih =>
    intro c h
    unfold List.dropWhile at h
    by_cases hb : p b = true
    · rw [hb] at h
      exact ih h
    · rw [Bool.not_eq_true] at hb
      rw [hb] at h
      rcases Option.some_inj.mp h with rfl
      exact hb

theorem dropWhile_eq_self_of_head {p : Char → Bool} {l : List Char}
    (h : ∀ c, l.head? = some c → p c = false) : l.dropWhile p = l := by
  cases l with
  | nil => rfl
  | cons c cs =>
    unfold List.dropWhile
    rw [h c rfl]

theorem trimWs_idem (l : List Char) : trimWs (trimWs l) = trimWs l := by
  cases hC : (l.dropWhile isJsSpace).reverse.dropWhile isJsSpace with
  | nil =>
    show trimWs (trimWs l) = trimWs l
    unfold trimWs
    rw [hC]
    rfl
  | cons c0 cs0 =>
    have hCne : (l.dropWhile isJsSpace).reverse.dropWhile isJsSpace ≠ [] := by
      rw [hC]; exact List.cons_ne_nil _ _
    set A := l.dropWhile isJsSpace with hA
    set C := A.reverse.dropWhile isJsSpace with hCdef
    have htriml : trimWs l = C.reverse := rfl
    -- the head of C is not whitespace
    have hheadC : ∀ c, C.head? = some c → isJsSpace c = false :=
      fun c hc => dropWhile_head_not hc
    -- the last entry of C is the head of A, hence not whitespace
    have hlastC : ∀ c, C.getLast? = some c → isJsSpace c = false := by
      intro c hc
      rcases List.dropWhile_suffix (l := A.reverse) isJsSpace with ⟨t, ht⟩
      have hBlast : A.reverse.getLast? = C.getLast? := by
        rw [← ht, List.getLast?_append, hc]
        rfl
      have : A.head? = some c := by
        rw [← List.getLast?_reverse, hBlast, hc]
      exact dropWhile_head_not (hA ▸ this)
    rw [htriml]
    show ((C.reverse.dropWhile isJsSpace).reverse.dropWhile isJsSpace).reverse
      = C.reverse
    rw [dropWhile_eq_self_of_head (p := isJsSpace) (l := C.reverse) (by
      intro c hc
      rw [List.head?_reverse] at hc
      exact hlastC c hc)]
    rw [List.reverse_reverse]
    rw [dropWhile_eq_self_of_head (p := isJsSpace) (l := C) hheadC]

theorem flatMap_escLt_eq_self {l : List Char} (h : '<' ∉ l) :
    l.flatMap escLt = l := by
  induction l with
  | nil => rfl
  | cons c cs ih =>
    rw [List.flatMap_cons]
    have hc : (c == '<') = false := by
      simp only [beq_eq_false_iff_ne, ne_eq]
      intro hcc
      exact h (hcc ▸ List.mem_cons_self c cs)
    unfold escLt
    rw [hc]
    simp only [Bool.false_eq_true, if_false, List.singleton_append,
      List.cons.injEq, true_and]
    exact ih (fun hm => h (List.mem_cons.mpr (Or.inr hm)))

theorem flatMap_escGt_eq_self {l : List Char} (h : '>' ∉ l) :
    l.flatMap escGt = l := by
  induction l with
  | nil => rfl
  | cons c cs ih =>
    rw [List.flatMap_cons]
    have hc : (c == '>') = false := by
      simp only [beq_eq_false_iff_ne, ne_eq]
      intro hcc
      exact h (hcc ▸ List.mem_cons_self c cs)
    unfold escGt
    rw [hc]
    simp only [Bool.false_eq_true, if_false, List.singleton_append,
      List.cons.injEq, true_and]
    exact ih (fun hm => h (List.mem_cons.mpr (Or.inr hm)))

theorem map_wsToSpace_eq_self {l : List Char}
    (h : ∀ c ∈ l, isJsSpace c = true → c = ' ') : l.map wsToSpace = l := by
  induction l with
  | nil => rfl
  | cons c cs ih =>
    rw [List.map_cons]
    have hc : wsToSpace c = c := by
      unfold wsToSpace
      by_cases hs : isJsSpace c = true
      · rw [if_pos hs, h c (List.mem_cons_self _ _) hs]
      · rw [if_neg hs]
    rw [hc, ih (fun a ha hs => h a (List.mem_cons.mpr (Or.inr ha)) hs)]

theorem string_mk_toList (s : String) : String.mk s.toList = s := by
  cases s
  rfl

theorem toList_string_mk (l : List Char) : (String.mk l).toList = l := rfl

theorem sanitizeMessage_eq_of_ne {y : String} (h : y ≠ "") :
    sanitizeMessage y = String.mk (sanitizeChars y.toList) := by
  unfold sanitizeMessage
  rw [if_neg h]

theorem sanitizeChars_eq (s : List Char) :
    sanitizeChars s =
      trimWs (squeezeSpaces ((((((scanRemove matchDangerousTag
        (scanRemove (matchBlockFor "style".toList)
          (scanRemove matchTagBlock
            (scanRemove matchProto
              (scanRemove matchEventHandler
                (scanRemove (matchBlockFor "script".toList) s))))))).flatMap
                  escLt).flatMap escGt).filter
                    (fun c => !(c == Char.ofNat 0))).map wsToSpace)) := rfl

theorem sanitize_tail_invariants (u : List Char) :
    '<' ∉ trimWs (squeezeSpaces ((((u.flatMap escLt).flatMap escGt).filter
        (fun c => !(c == Char.ofNat 0))).map wsToSpace)) ∧
    '>' ∉ trimWs (squeezeSpaces ((((u.flatMap escLt).flatMap escGt).filter
        (fun c => !(c == Char.ofNat 0))).map wsToSpace)) ∧
    Char.ofNat 0 ∉ trimWs (squeezeSpaces ((((u.flatMap escLt).flatMap
        escGt).filter (fun c => !(c == Char.ofNat 0))).map wsToSpace)) ∧
    (∀ c ∈ trimWs (squeezeSpaces ((((u.flatMap escLt).flatMap escGt).filter
        (fun c => !(c == Char.ofNat 0))).map wsToSpace)),
      isJsSpace c = true → c = ' ') ∧
    List.Chain' (fun a b => ¬(a = ' ' ∧ b = ' '))
      (trimWs (squeezeSpaces ((((u.flatMap escLt).flatMap escGt).filter
        (fun c => !(c == Char.ofNat 0))).map wsToSpace))) ∧
    trimWs (trimWs (squeezeSpaces ((((u.flatMap escLt).flatMap escGt).filter
        (fun c => !(c == Char.ofNat 0))).map wsToSpace)))
      = trimWs (squeezeSpaces ((((u.flatMap escLt).flatMap escGt).filter
        (fun c => !(c == Char.ofNat 0))).map wsToSpace)) := by
  set s7 := u.flatMap escLt with hs7
  set s8 := s7.flatMap escGt with hs8
  set s9 := s8.filter (fun c => !(c == Char.ofNat 0)) with hs9
  set s10 := s9.map wsToSpace with hs10
  have hlt8 : '<' ∉ s8 := no_lt_flatMap_escGt (not_lt_mem_flatMap_escLt u)
  have hgt8 : '>' ∉ s8 := not_gt_mem_flatMap_escGt s7
  have hlt9 : '<' ∉ s9 := fun h => hlt8 (List.mem_of_mem_filter h)
  have hgt9 : '>' ∉ s9 := fun h => hgt8 (List.mem_of_mem_filter h)
  have hnul9 : Char.ofNat 0 ∉ s9 := by
    intro h
    have hp := List.of_mem_filter h
    simp at hp
  have hmap : ∀ a ∈ s10, a = ' ' ∨ a ∈ s9 := by
    intro a ha
    rcases List.mem_map.mp ha with ⟨c, hc, rfl⟩
    unfold wsToSpace
    by_cases hs : isJsSpace c = true
    · rw [if_pos hs]
      exact Or.inl rfl
    · rw [if_neg hs]
      exact Or.inr hc
  have hlt10 : '<' ∉ s10 := by
    intro h
    rcases hmap _ h with heq | hmem
    · exact absurd heq (by decide)
    · exact hlt9 hmem
  have hgt10 : '>' ∉ s10 := by
    intro h
    rcases hmap _ h with heq | hmem
    · exact absurd heq (by decide)
    · exact hgt9 hmem
  have hnul10 : Char.ofNat 0 ∉ s10 := by
    intro h
    rcases hmap _ h with heq | hmem
    · exact absurd heq (by decide)
    · exact hnul9 hmem
  have hmemy : ∀ a, a ∈ trimWs (squeezeSpaces s10) → a ∈ s10 :=
    fun a ha => mem_squeezeSpaces s10 a (mem_trimWs ha)
  refine ⟨fun h => hlt10 (hmemy _ h), fun h => hgt10 (hmemy _ h),
    fun h => hnul10 (hmemy _ h), ?_, ?_, trimWs_idem _⟩
  · intro c hc hs
    exact wsNormal_map s9 c (hmemy c hc) hs
  · exact chain_trimWs (chain_squeezeSpaces s10)

theorem sanitizeMessage_invariants (x : String) :
    '<' ∉ (sanitizeMessage x).toList ∧
    '>' ∉ (sanitizeMessage x).toList ∧
    Char.ofNat 0 ∉ (sanitizeMessage x).toList ∧
    (∀ c ∈ (sanitizeMessage x).toList, isJsSpace c = true → c = ' ') ∧
    List.Chain' (fun a b => ¬(a = ' ' ∧ b = ' ')) (sanitizeMessage x).toList ∧
    trimWs (sanitizeMessage x).toList = (sanitizeMessage x).toList := by
  by_cases hx : x = ""
  · subst hx
    refine ⟨by simp [sanitizeMessage], by simp [sanitizeMessage],
      by simp [sanitizeMessage], by simp [sanitizeMessage],
      by simp [sanitizeMessage], by simp [sanitizeMessage, trimWs]⟩
  · have hlist : (sanitizeMessage x).toList = sanitizeChars x.toList := by
      unfold sanitizeMessage
      rw [if_neg hx]
      exact toList_string_mk _
    rw [hlist, sanitizeChars_eq]
    exact sanitize_tail_invariants _

/-- C8 counterexample: the sanitizer is NOT idempotent.  Removing the
middle `javascript:` occurrence from `jjavascript:avascript:` reassembles
the string `javascript:` (JS global replace never rescans its own
output), and a second application removes it, so
`sanitizeMessage (sanitizeMessage x) ≠ sanitizeMessage x`. -/
theorem c8_sanitize_not_idempotent_cex :
    sanitizeMessage "jjavascript:avascript:" = "javascript:" ∧
    sanitizeMessage (sanitizeMessage "jjavascript:avascript:") = "" ∧
    sanitizeMessage (sanitizeMessage "jjavascript:avascript:")
      ≠ sanitizeMessage "jjavascript:avascript:" := by
  decide

/-- C8 (amended): the sanitizer is idempotent except for its
protocol-marker and event-handler removals, which a first pass can
re-create: every sanitized output is already free of angle brackets and
null bytes and has normalized whitespace, so whenever the second pass's
`javascript:`/`data:` and event-handler scans find nothing in the output
(the only stages that can re-fire), re-sanitizing it changes nothing. -/
theorem c8_sanitize_conditional_idempotent (x : String)
    (h2 : scanRemove matchEventHandler (sanitizeMessage x).toList
        = (sanitizeMessage x).toList)
    (h3 : scanRemove matchProto (sanitizeMessage x).toList
        = (sanitizeMessage x).toList) :
    sanitizeMessage (sanitizeMessage x) = sanitizeMessage x := by
  obtain ⟨hlt, hgt, hnul, hws, hchain, htrim⟩ := sanitizeMessage_invariants x
  by_cases hempty : sanitizeMessage x = ""
  · rw [hempty]
    rfl
  · have hdata : sanitizeChars (sanitizeMessage x).toList
        = (sanitizeMessage x).toList := by
      have hid1 : scanRemove (matchBlockFor "script".toList)
          (sanitizeMessage x).toList = (sanitizeMessage x).toList :=
        scanRemove_eq_self_of_no_lt (matchBlockFor_ltHeaded _) hlt
      have hid4 : scanRemove matchTagBlock (sanitizeMessage x).toList
          = (sanitizeMessage x).toList :=
        scanRemove_eq_self_of_no_lt matchTagBlock_ltHeaded hlt
      have hid5 : scanRemove (matchBlockFor "style".toList)
          (sanitizeMessage x).toList = (sanitizeMessage x).toList :=
        scanRemove_eq_self_of_no_lt (matchBlockFor_ltHeaded _) hlt
      have hid6 : scanRemove matchDangerousTag (sanitizeMessage x).toList
          = (sanitizeMessage x).toList :=
        scanRemove_eq_self_of_no_lt matchDangerousTag_ltHeaded hlt
      have hid7 : (sanitizeMessage x).toList.flatMap escLt
          = (sanitizeMessage x).toList := flatMap_escLt_eq_self hlt
      have hid8 : (sanitizeMessage x).toList.flatMap escGt
          = (sanitizeMessage x).toList := flatMap_escGt_eq_self hgt
      have hid9 : (sanitizeMessage x).toList.filter
            (fun c => !(c == Char.ofNat 0)) = (sanitizeMessage x).toList := by
        apply List.filter_eq_self.mpr
        intro a ha
        simp only [Bool.not_eq_eq_eq_not, Bool.not_true, beq_eq_false_iff_ne,
          ne_eq]
        intro hc
        exact hnul (hc ▸ ha)
      have hid10 : (sanitizeMessage x).toList.map wsToSpace
          = (sanitizeMessage x).toList := map_wsToSpace_eq_self hws
      have hid11 : squeezeSpaces (sanitizeMessage x).toList
          = (sanitizeMessage x).toList := squeeze_eq_self _ hchain
      rw [sanitizeChars_eq, hid1, h2, h3, hid4, hid5, hid6, hid7, hid8, hid9,
        hid10, hid11, htrim]
    rw [sanitizeMessage_eq_of_ne hempty, hdata, string_mk_toList]

/-- Witness for C8's amended theorem: re-sanitizing the (already clean)
sanitized form of `hello world` is a no-op. -/
theorem c8_sanitize_conditional_idempotent_witness :
    sanitizeMessage (sanitizeMessage "hello world")
      = sanitizeMessage "hello world" :=
  c8_sanitize_conditional_idempotent "hello world" (by decide) (by decide)

/-- C9: for every input string the sanitized message contains no `<`
character at all — every angle bracket is either removed with its tag or
HTML-escaped to `&lt;` — and therefore no literal `<script` substring
survives in the output. -/
theorem c9_no_script_tag_survives (s : String) :
    '<' ∉ (sanitizeMessage s).toList ∧
    ¬ ("<script".toList <:+: (sanitizeMessage s).toList) := by
  obtain ⟨hlt, -, -, -, -, -⟩ := sanitizeMessage_invariants s
  refine ⟨hlt, fun hinf => hlt (hinf.sublist.subset ?_)⟩
  decide

end GabrielSite
